import Mathlib

/-!
Verification of the schema `Kind` codec and the app-data test simulator of the
cosmos-sdk `schema` module.

The Go sources are shallowly embedded:
* `Kind` is `type Kind int` in Go, so it is modelled as `Int`, with the
  enumeration constants given by their `iota` values.
* Go `string` values are arbitrary byte sequences, modelled as `List Nat`
  (each element one byte).
* Fallible Go functions returning `error` are modelled with `Except String`;
  the exact `fmt.Errorf` interpolations of dynamic data are elided from the
  message text, which no property depends on.
-/

/-- Go `type Kind int`: the basic type of a field in an object. -/
abbrev Kind := Int

/-- `InvalidKind Kind = iota` -/
abbrev InvalidKind : Kind := 0

/-- `StringKind` -/
abbrev StringKind : Kind := 1

/-- `BytesKind` -/
abbrev BytesKind : Kind := 2

/-- `Int8Kind` -/
abbrev Int8Kind : Kind := 3

/-- `Uint8Kind` -/
abbrev Uint8Kind : Kind := 4

/-- `Int16Kind` -/
abbrev Int16Kind : Kind := 5

/-- `Uint16Kind` -/
abbrev Uint16Kind : Kind := 6

/-- `Int32Kind` -/
abbrev Int32Kind : Kind := 7

/-- `Uint32Kind` -/
abbrev Uint32Kind : Kind := 8

/-- `Int64Kind` -/
abbrev Int64Kind : Kind := 9

/-- `Uint64Kind` -/
abbrev Uint64Kind : Kind := 10

/-- `IntegerStringKind` -/
abbrev IntegerStringKind : Kind := 11

/-- `DecimalStringKind` -/
abbrev DecimalStringKind : Kind := 12

/-- `BoolKind` -/
abbrev BoolKind : Kind := 13

/-- `TimeKind` -/
abbrev TimeKind : Kind := 14

/-- `DurationKind` -/
abbrev DurationKind : Kind := 15

/-- `Float32Kind` -/
abbrev Float32Kind : Kind := 16

/-- `Float64Kind` -/
abbrev Float64Kind : Kind := 17

/-- `AddressKind` -/
abbrev AddressKind : Kind := 18

/-- `EnumKind` -/
abbrev EnumKind : Kind := 19

/-- `JSONKind` -/
abbrev JSONKind : Kind := 20

/-- `UIntNKind` (unimplemented in the source) -/
abbrev UIntNKind : Kind := 21

/-- `IntNKind` (unimplemented in the source) -/
abbrev IntNKind : Kind := 22

/-- `StructKind` (unimplemented in the source) -/
abbrev StructKind : Kind := 23

/-- `OneOfKind` (unimplemented in the source) -/
abbrev OneOfKind : Kind := 24

/-- `ListKind` (unimplemented in the source) -/
abbrev ListKind : Kind := 25

/-- `const MAX_VALID_KIND = JSONKind`: the maximum valid kind value. -/
abbrev MAX_VALID_KIND : Kind := JSONKind

/-- `func (t Kind) Validate() error`: returns an error if the kind is invalid. -/
def Kind.Validate (t : Kind) : Except String Unit :=
  if t ≤ InvalidKind then .error ("unknown type: " ++ toString t)
  else if t > JSONKind then .error ("invalid type: " ++ toString t)
  else .ok ()

/-- `func (t Kind) String() string`: a string representation of the kind.
The Go `switch` on `t` is rendered as an equality chain; the `default`
branch renders the diagnostic placeholder `invalid(%d)`. -/
def Kind.string (t : Kind) : String :=
  if t = StringKind then "string"
  else if t = BytesKind then "bytes"
  else if t = Int8Kind then "int8"
  else if t = Uint8Kind then "uint8"
  else if t = Int16Kind then "int16"
  else if t = Uint16Kind then "uint16"
  else if t = Int32Kind then "int32"
  else if t = Uint32Kind then "uint32"
  else if t = Int64Kind then "int64"
  else if t = Uint64Kind then "uint64"
  else if t = DecimalStringKind then "decimal"
  else if t = IntegerStringKind then "integer"
  else if t = BoolKind then "bool"
  else if t = TimeKind then "time"
  else if t = DurationKind then "duration"
  else if t = Float32Kind then "float32"
  else if t = Float64Kind then "float64"
  else if t = AddressKind then "address"
  else if t = EnumKind then "enum"
  else if t = JSONKind then "json"
  else "invalid(" ++ toString t ++ ")"

/-- `var kindStrings = map[string]Kind{}` populated at `init` by the loop
`for i := InvalidKind + 1; i <= MAX_VALID_KIND; i++ { kindStrings[i.String()] = i }`,
modelled as the association list of (name, identifier) pairs for i = 1..20. -/
def kindStrings : List (String × Kind) :=
  (List.range 20).map (fun i => (Kind.string (Int.ofNat i + 1), Int.ofNat i + 1))

/-- `func (t *Kind) UnmarshalJSON(data []byte) error`: the input JSON document
is first decoded by the standard library into a Go string `s` (for a document
produced by `json.Marshal` of a name this yields that name back, so we model
the function directly on the decoded string), then `s` is looked up in
`kindStrings`; an unknown name is an error. -/
def Kind.UnmarshalJSON (s : String) : Except String Kind :=
  match kindStrings.find? (fun p => p.1 == s) with
  | some p => .ok p.2
  | none => .error ("invalid kind: " ++ s)

/-- `func (t Kind) ValidKeyKind() bool`: false precisely on the
`Float32Kind, Float64Kind, JSONKind` cases of the Go switch, true in the
default branch. -/
def Kind.ValidKeyKind (t : Kind) : Bool :=
  if t = Float32Kind ∨ t = Float64Kind ∨ t = JSONKind then false else true

lemma kind_unmarshal_string_roundtrip (k : Kind) (h1 : 0 < k) (h2 : k ≤ MAX_VALID_KIND) :
    Kind.UnmarshalJSON (Kind.string k) = .ok k := by
  have h2' : k ≤ 20 := h2
  interval_cases k <;> rfl

lemma kind_validate_ok_of_implemented (k : Kind) (h1 : 0 < k) (h2 : k ≤ MAX_VALID_KIND) :
    Kind.Validate k = .ok () := by
  have h2' : k ≤ 20 := h2
  interval_cases k <;> rfl

/-- C1: for every implemented kind `k` (identifier in `(0, MAX_VALID_KIND]`),
`Kind.Validate k` succeeds, parsing the canonical name `Kind.string k` back via
`Kind.UnmarshalJSON` yields `k` again, and the name-to-identifier map is
injective over implemented kinds. -/
theorem kind_name_roundtrip (k : Kind) (h1 : 0 < k) (h2 : k ≤ MAX_VALID_KIND) :
    Kind.Validate k = .ok () ∧
    Kind.UnmarshalJSON (Kind.string k) = .ok k ∧
    ∀ j : Kind, 0 < j → j ≤ MAX_VALID_KIND → Kind.string j = Kind.string k → j = k := by
  refine ⟨kind_validate_ok_of_implemented k h1 h2, kind_unmarshal_string_roundtrip k h1 h2, ?_⟩
  intro j hj1 hj2 hname
  have hk := kind_unmarshal_string_roundtrip k h1 h2
  have hjr := kind_unmarshal_string_roundtrip j hj1 hj2
  rw [hname, hk] at hjr
  exact (Except.ok.injEq _ _).mp hjr.symm

/-- Witness for C1 at the concrete kind `Int64Kind = 9`. -/
theorem kind_name_roundtrip_witness :
    Kind.Validate Int64Kind = .ok () ∧
    Kind.UnmarshalJSON (Kind.string Int64Kind) = .ok Int64Kind ∧
    ∀ j : Kind, 0 < j → j ≤ MAX_VALID_KIND → Kind.string j = Kind.string Int64Kind →
      j = Int64Kind :=
  kind_name_roundtrip Int64Kind (by decide) (by decide)

/-- C2: `Kind.Validate` errors at identifier 0 and at every identifier above
`MAX_VALID_KIND`, and succeeds at every identifier strictly between 0 and
`MAX_VALID_KIND`. -/
theorem kind_validate_bounds :
    Kind.Validate 0 ≠ .ok () ∧
    (∀ k : Kind, MAX_VALID_KIND < k → Kind.Validate k ≠ .ok ()) ∧
    (∀ k : Kind, 0 < k → k < MAX_VALID_KIND → Kind.Validate k = .ok ()) := by
  refine ⟨fun h => Except.noConfusion h, ?_, ?_⟩
  · intro k hk
    have hA : ¬ (k ≤ InvalidKind) := fun hle => absurd (lt_of_lt_of_le hk hle) (by decide)
    unfold Kind.Validate
    rw [if_neg hA, if_pos hk]
    exact fun h => Except.noConfusion h
  · intro k hk1 hk2
    exact kind_validate_ok_of_implemented k hk1 (le_of_lt hk2)

/-- Witness for C2: a too-large identifier is rejected, an interior one accepted. -/
theorem kind_validate_bounds_witness :
    Kind.Validate 21 ≠ .ok () ∧ Kind.Validate 5 = .ok () :=
  ⟨kind_validate_bounds.2.1 21 (by decide), kind_validate_bounds.2.2 5 (by decide) (by decide)⟩

/-- C5: `Kind.ValidKeyKind` returns false exactly when the kind is
`Float32Kind`, `Float64Kind` or `JSONKind`, and true for every other value. -/
theorem valid_key_kind_iff (k : Kind) :
    Kind.ValidKeyKind k = false ↔ (k = Float32Kind ∨ k = Float64Kind ∨ k = JSONKind) := by
  unfold Kind.ValidKeyKind
  split <;> simp_all

/-- A Go `interface{}` value as dispatched by the type switches in
`Kind.ValidateValueType` and `KindForGoValue`. Each constructor is one
dynamic Go type appearing in those switches (note that `json.RawMessage`
and `time.Duration` are named types distinct from `[]byte` and `int64` in
a Go type switch). Payloads carry the data relevant to the embedding:
strings and byte slices are byte sequences, numerics are unbounded
integers (their machine ranges are never inspected by these functions),
floats are carried as raw bit patterns, and `time.Time` as nanoseconds
since the epoch. `other` stands for a value of any dynamic type with no
case in the switches, identified by its type name. -/
inductive GoValue where
  | string (bs : List Nat)
  | bytes (bs : List Nat)
  | int8 (v : Int)
  | uint8 (v : Nat)
  | int16 (v : Int)
  | uint16 (v : Nat)
  | int32 (v : Int)
  | uint32 (v : Nat)
  | int64 (v : Int)
  | uint64 (v : Nat)
  | float32 (bits : Nat)
  | float64 (bits : Nat)
  | bool (b : Bool)
  | time (ns : Int)
  | duration (ns : Int)
  | jsonRawMessage (bs : List Nat)
  | other (typeName : String)
deriving DecidableEq

/-- The Go type name of a value, as `fmt.Errorf`'s `%T` verb renders it. -/
def GoValue.goType : GoValue → String
  | .string _ => "string"
  | .bytes _ => "[]uint8"
  | .int8 _ => "int8"
  | .uint8 _ => "uint8"
  | .int16 _ => "int16"
  | .uint16 _ => "uint16"
  | .int32 _ => "int32"
  | .uint32 _ => "uint32"
  | .int64 _ => "int64"
  | .uint64 _ => "uint64"
  | .float32 _ => "float32"
  | .float64 _ => "float64"
  | .bool _ => "bool"
  | .time _ => "time.Time"
  | .duration _ => "time.Duration"
  | .jsonRawMessage _ => "json.RawMessage"
  | .other t => t

/-- `func (t Kind) ValidateValueType(value interface{}) error`: checks that
the dynamic Go type of `value` is the one expected for the kind. Each Go
`case` performs a type assertion, modelled as a match on the corresponding
`GoValue` constructor; the `default` branch is the invalid-type error. -/
def Kind.ValidateValueType (t : Kind) (value : GoValue) : Except String Unit :=
  if t = StringKind then
    match value with
    | .string _ => .ok ()
    | v => .error ("expected string, got " ++ v.goType)
  else if t = BytesKind then
    match value with
    | .bytes _ => .ok ()
    | v => .error ("expected []byte, got " ++ v.goType)
  else if t = Int8Kind then
    match value with
    | .int8 _ => .ok ()
    | v => .error ("expected int8, got " ++ v.goType)
  else if t = Uint8Kind then
    match value with
    | .uint8 _ => .ok ()
    | v => .error ("expected uint8, got " ++ v.goType)
  else if t = Int16Kind then
    match value with
    | .int16 _ => .ok ()
    | v => .error ("expected int16, got " ++ v.goType)
  else if t = Uint16Kind then
    match value with
    | .uint16 _ => .ok ()
    | v => .error ("expected uint16, got " ++ v.goType)
  else if t = Int32Kind then
    match value with
    | .int32 _ => .ok ()
    | v => .error ("expected int32, got " ++ v.goType)
  else if t = Uint32Kind then
    match value with
    | .uint32 _ => .ok ()
    | v => .error ("expected uint32, got " ++ v.goType)
  else if t = Int64Kind then
    match value with
    | .int64 _ => .ok ()
    | v => .error ("expected int64, got " ++ v.goType)
  else if t = Uint64Kind then
    match value with
    | .uint64 _ => .ok ()
    | v => .error ("expected uint64, got " ++ v.goType)
  else if t = IntegerStringKind then
    match value with
    | .string _ => .ok ()
    | v => .error ("expected string, got " ++ v.goType)
  else if t = DecimalStringKind then
    match value with
    | .string _ => .ok ()
    | v => .error ("expected string, got " ++ v.goType)
  else if t = BoolKind then
    match value with
    | .bool _ => .ok ()
    | v => .error ("expected bool, got " ++ v.goType)
  else if t = TimeKind then
    match value with
    | .time _ => .ok ()
    | v => .error ("expected time.Time, got " ++ v.goType)
  else if t = DurationKind then
    match value with
    | .duration _ => .ok ()
    | v => .error ("expected time.Duration, got " ++ v.goType)
  else if t = Float32Kind then
    match value with
    | .float32 _ => .ok ()
    | v => .error ("expected float32, got " ++ v.goType)
  else if t = Float64Kind then
    match value with
    | .float64 _ => .ok ()
    | v => .error ("expected float64, got " ++ v.goType)
  else if t = AddressKind then
    match value with
    | .bytes _ => .ok ()
    | v => .error ("expected []byte, got " ++ v.goType)
  else if t = EnumKind then
    match value with
    | .string _ => .ok ()
    | v => .error ("expected string, got " ++ v.goType)
  else if t = JSONKind then
    match value with
    | .jsonRawMessage _ => .ok ()
    | v => .error ("expected json.RawMessage, got " ++ v.goType)
  else .error ("invalid type: " ++ toString t)

/-- `func KindForGoValue(value interface{}) Kind`: the simplest kind that can
represent the given Go value; the `default` branch returns `InvalidKind`. -/
def KindForGoValue (value : GoValue) : Kind :=
  match value with
  | .string _ => StringKind
  | .bytes _ => BytesKind
  | .int8 _ => Int8Kind
  | .uint8 _ => Uint8Kind
  | .int16 _ => Int16Kind
  | .uint16 _ => Uint16Kind
  | .int32 _ => Int32Kind
  | .uint32 _ => Uint32Kind
  | .int64 _ => Int64Kind
  | .uint64 _ => Uint64Kind
  | .float32 _ => Float32Kind
  | .float64 _ => Float64Kind
  | .bool _ => BoolKind
  | .time _ => TimeKind
  | .duration _ => DurationKind
  | .jsonRawMessage _ => JSONKind
  | .other _ => InvalidKind

/-- C8: `KindForGoValue` maps each supported native Go value to its unique
kind, never returns the string-backed kinds `IntegerStringKind`,
`DecimalStringKind`, `AddressKind` or `EnumKind`, and returns `InvalidKind`
exactly for values of a dynamic type with no mapping. -/
theorem kind_for_go_value_spec :
    (∀ bs, KindForGoValue (.string bs) = StringKind) ∧
    (∀ bs, KindForGoValue (.bytes bs) = BytesKind) ∧
    (∀ v, KindForGoValue (.int8 v) = Int8Kind) ∧
    (∀ v, KindForGoValue (.uint8 v) = Uint8Kind) ∧
    (∀ v, KindForGoValue (.int16 v) = Int16Kind) ∧
    (∀ v, KindForGoValue (.uint16 v) = Uint16Kind) ∧
    (∀ v, KindForGoValue (.int32 v) = Int32Kind) ∧
    (∀ v, KindForGoValue (.uint32 v) = Uint32Kind) ∧
    (∀ v, KindForGoValue (.int64 v) = Int64Kind) ∧
    (∀ v, KindForGoValue (.uint64 v) = Uint64Kind) ∧
    (∀ b, KindForGoValue (.float32 b) = Float32Kind) ∧
    (∀ b, KindForGoValue (.float64 b) = Float64Kind) ∧
    (∀ b, KindForGoValue (.bool b) = BoolKind) ∧
    (∀ ns, KindForGoValue (.time ns) = TimeKind) ∧
    (∀ ns, KindForGoValue (.duration ns) = DurationKind) ∧
    (∀ bs, KindForGoValue (.jsonRawMessage bs) = JSONKind) ∧
    (∀ v : GoValue, KindForGoValue v ≠ IntegerStringKind ∧
      KindForGoValue v ≠ DecimalStringKind ∧
      KindForGoValue v ≠ AddressKind ∧
      KindForGoValue v ≠ EnumKind) ∧
    (∀ v : GoValue, KindForGoValue v = InvalidKind ↔ ∃ t, v = .other t) := by
  refine ⟨fun _ => rfl, fun _ => rfl, fun _ => rfl, fun _ => rfl, fun _ => rfl, fun _ => rfl,
    fun _ => rfl, fun _ => rfl, fun _ => rfl, fun _ => rfl, fun _ => rfl, fun _ => rfl,
    fun _ => rfl, fun _ => rfl, fun _ => rfl, fun _ => rfl, ?_, ?_⟩
  · intro v
    cases v <;> exact ⟨fun h => by simp [KindForGoValue] at h, fun h => by simp [KindForGoValue] at h,
      fun h => by simp [KindForGoValue] at h, fun h => by simp [KindForGoValue] at h⟩
  · intro v
    cases v <;> simp [KindForGoValue]

/-- C10: whenever `KindForGoValue` assigns a value a kind other than
`InvalidKind`, that kind's native-form validation accepts the value. -/
theorem kind_for_go_value_validates (v : GoValue) (h : KindForGoValue v ≠ InvalidKind) :
    Kind.ValidateValueType (KindForGoValue v) v = .ok () := by
  cases v <;> first
    | rfl
    | exact absurd rfl h

/-- Witness for C10 at the concrete value `int64 7`. -/
theorem kind_for_go_value_validates_witness :
    Kind.ValidateValueType (KindForGoValue (.int64 7)) (.int64 7) = .ok () :=
  kind_for_go_value_validates (.int64 7) (by decide)

/-- Continuation byte test of Go `unicode/utf8` decoding: `0x80 <= b <= 0xBF`. -/
def isCont (b : Nat) : Bool := 128 ≤ b && b ≤ 191

/-- Allowed second-byte range of a 3-byte UTF-8 sequence (excludes overlong
forms after `0xE0` and surrogates after `0xED`). -/
def accept3 (b0 b1 : Nat) : Bool :=
  if b0 = 224 then 160 ≤ b1 && b1 ≤ 191
  else if b0 = 237 then 128 ≤ b1 && b1 ≤ 159
  else isCont b1

/-- Allowed second-byte range of a 4-byte UTF-8 sequence (excludes overlong
forms after `0xF0` and code points above U+10FFFF after `0xF4`). -/
def accept4 (b0 b1 : Nat) : Bool :=
  if b0 = 240 then 144 ≤ b1 && b1 ≤ 191
  else if b0 = 244 then 128 ≤ b1 && b1 ≤ 143
  else isCont b1

/-- Code point of a 2-byte UTF-8 sequence. -/
def rune2 (b0 b1 : Nat) : Nat := (b0 - 192) * 64 + (b1 - 128)

/-- Code point of a 3-byte UTF-8 sequence. -/
def rune3 (b0 b1 b2 : Nat) : Nat := (b0 - 224) * 4096 + (b1 - 128) * 64 + (b2 - 128)

/-- Code point of a 4-byte UTF-8 sequence. -/
def rune4 (b0 b1 b2 b3 : Nat) : Nat :=
  (b0 - 240) * 262144 + (b1 - 128) * 4096 + (b2 - 128) * 64 + (b3 - 128)

/-- Decode one rune of Go UTF-8 from first byte `b0` and remaining bytes
`rest`: `some (rune, unconsumed)` on success, `none` on invalid input, with
the acceptance ranges of Go `unicode/utf8` (first byte classes `0x00-0x7F`,
`0xC2-0xDF`, `0xE0-0xEF`, `0xF0-0xF4`; continuation bytes `0x80-0xBF`
restricted by `accept3`/`accept4`). -/
def utf8DecodeOne (b0 : Nat) (rest : List Nat) : Option (Nat × List Nat) :=
  if b0 < 128 then some (b0, rest)
  else if b0 < 194 then none
  else if b0 < 224 then
    match rest with
    | b1 :: rest2 => if isCont b1 then some (rune2 b0 b1, rest2) else none
    | [] => none
  else if b0 < 240 then
    match rest with
    | b1 :: b2 :: rest3 =>
      if accept3 b0 b1 && isCont b2 then some (rune3 b0 b1 b2, rest3) else none
    | _ => none
  else if b0 < 245 then
    match rest with
    | b1 :: b2 :: b3 :: rest4 =>
      if accept4 b0 b1 && isCont b2 && isCont b3 then some (rune4 b0 b1 b2 b3, rest4) else none
    | _ => none
  else none

lemma utf8DecodeOne_shorter (b0 : Nat) (rest : List Nat) (r : Nat) (rest' : List Nat)
    (h : utf8DecodeOne b0 rest = some (r, rest')) : rest'.length ≤ rest.length := by
  unfold utf8DecodeOne at h
  repeat' split at h
  all_goals simp_all
  all_goals omega

/-- Go `unicode/utf8` decoding of a whole byte sequence into its runes:
`some runes` when the bytes are valid UTF-8, `none` otherwise.
`utf8.ValidString(s)` is `(utf8Decode s).isSome`, and for a valid string the
`for _, r := range str` loop of `Kind.ValidateValue` visits exactly the
decoded runes. -/
def utf8Decode (bs : List Nat) : Option (List Nat) :=
  match bs with
  | [] => some []
  | b0 :: rest =>
    match hone : utf8DecodeOne b0 rest with
    | some (r, rest') => (utf8Decode rest').map fun rs => r :: rs
    | none => none
termination_by bs.length
decreasing_by
  simp only [List.length_cons]
  have := utf8DecodeOne_shorter b0 rest r rest' hone
  omega


lemma rune2_pos (b0 b1 : Nat) (h0 : ¬ b0 < 194) : ¬ (0 = rune2 b0 b1) := by
  unfold rune2; omega

lemma rune3_pos (b0 b1 b2 : Nat) (h : accept3 b0 b1 = true) (h0 : ¬ b0 < 224) :
    ¬ (0 = rune3 b0 b1 b2) := by
  unfold accept3 isCont at h
  unfold rune3
  by_cases e1 : b0 = 224
  · rw [if_pos e1] at h; simp at h; omega
  · omega

lemma rune4_pos (b0 b1 b2 b3 : Nat) (h : accept4 b0 b1 = true) (h0 : ¬ b0 < 240) :
    ¬ (0 = rune4 b0 b1 b2 b3) := by
  unfold accept4 isCont at h
  unfold rune4
  by_cases e1 : b0 = 240
  · rw [if_pos e1] at h; simp at h; omega
  · omega

lemma accept3_lower (b0 b1 : Nat) (h : accept3 b0 b1 = true) : 128 ≤ b1 := by
  unfold accept3 isCont at h
  by_cases e1 : b0 = 224
  · rw [if_pos e1] at h; simp at h; omega
  · by_cases e2 : b0 = 237
    · rw [if_neg e1, if_pos e2] at h; simp at h; omega
    · rw [if_neg e1, if_neg e2] at h; simp at h; omega

lemma accept4_lower (b0 b1 : Nat) (h : accept4 b0 b1 = true) : 128 ≤ b1 := by
  unfold accept4 isCont at h
  by_cases e1 : b0 = 240
  · rw [if_pos e1] at h; simp at h; omega
  · by_cases e2 : b0 = 244
    · rw [if_neg e1, if_pos e2] at h; simp at h; omega
    · rw [if_neg e1, if_neg e2] at h; simp at h; omega

lemma utf8DecodeOne_zero (b0 : Nat) (rest : List Nat) (r : Nat) (rest' : List Nat)
    (h : utf8DecodeOne b0 rest = some (r, rest')) :
    (0 = b0 ∨ 0 ∈ rest) ↔ (0 = r ∨ 0 ∈ rest') := by
  unfold utf8DecodeOne at h
  by_cases c1 : b0 < 128
  · rw [if_pos c1] at h
    simp only [Option.some.injEq, Prod.mk.injEq] at h
    obtain ⟨hr, hrest⟩ := h
    subst hr; subst hrest
    exact Iff.rfl
  · rw [if_neg c1] at h
    by_cases c2 : b0 < 194
    · rw [if_pos c2] at h; exact absurd h (by simp)
    · rw [if_neg c2] at h
      by_cases c3 : b0 < 224
      · rw [if_pos c3] at h
        rcases rest with _ | ⟨b1, rest2⟩
        · exact absurd h (by simp)
        · replace h : (if isCont b1 then some (rune2 b0 b1, rest2) else none) =
              some (r, rest') := h
          by_cases c4 : isCont b1 = true
          · rw [if_pos c4] at h
            simp only [Option.some.injEq, Prod.mk.injEq] at h
            obtain ⟨hr, hrest⟩ := h
            subst hr; subst hrest
            have hb1 : 128 ≤ b1 := by unfold isCont at c4; simp at c4; omega
            have k0 : ¬ (0 = b0) := by omega
            have k1 : ¬ (0 = b1) := by omega
            have k2 := rune2_pos b0 b1 c2
            simp [List.mem_cons, k0, k1, k2]
          · rw [if_neg c4] at h; exact absurd h (by simp)
      · rw [if_neg c3] at h
        by_cases c5 : b0 < 240
        · rw [if_pos c5] at h
          rcases rest with _ | ⟨b1, _ | ⟨b2, rest3⟩⟩
          · exact absurd h (by simp)
          · exact absurd h (by simp)
          · replace h : (if accept3 b0 b1 && isCont b2 then some (rune3 b0 b1 b2, rest3)
                else none) = some (r, rest') := h
            by_cases c6 : (accept3 b0 b1 && isCont b2) = true
            · rw [if_pos c6] at h
              simp only [Option.some.injEq, Prod.mk.injEq] at h
              obtain ⟨hr, hrest⟩ := h
              subst hr; subst hrest
              simp only [Bool.and_eq_true] at c6
              obtain ⟨c6a, c6b⟩ := c6
              have hb1 : 128 ≤ b1 := accept3_lower b0 b1 c6a
              have hb2 : 128 ≤ b2 := by unfold isCont at c6b; simp at c6b; omega
              have k0 : ¬ (0 = b0) := by omega
              have k1 : ¬ (0 = b1) := by omega
              have k2 : ¬ (0 = b2) := by omega
              have k3 := rune3_pos b0 b1 b2 c6a c3
              simp [List.mem_cons, k0, k1, k2, k3]
            · rw [if_neg c6] at h; exact absurd h (by simp)
        · rw [if_neg c5] at h
          by_cases c7 : b0 < 245
          · rw [if_pos c7] at h
            rcases rest with _ | ⟨b1, _ | ⟨b2, _ | ⟨b3, rest4⟩⟩⟩
            · exact absurd h (by simp)
            · exact absurd h (by simp)
            · exact absurd h (by simp)
            · replace h : (if accept4 b0 b1 && isCont b2 && isCont b3 then
                  some (rune4 b0 b1 b2 b3, rest4) else none) = some (r, rest') := h
              by_cases c8 : (accept4 b0 b1 && isCont b2 && isCont b3) = true
              · rw [if_pos c8] at h
                simp only [Option.some.injEq, Prod.mk.injEq] at h
                obtain ⟨hr, hrest⟩ := h
                subst hr; subst hrest
                simp only [Bool.and_eq_true] at c8
                obtain ⟨⟨c8a, c8b⟩, c8c⟩ := c8
                have hb1 : 128 ≤ b1 := accept4_lower b0 b1 c8a
                have hb2 : 128 ≤ b2 := by unfold isCont at c8b; simp at c8b; omega
                have hb3 : 128 ≤ b3 := by unfold isCont at c8c; simp at c8c; omega
                have k0 : ¬ (0 = b0) := by omega
                have k1 : ¬ (0 = b1) := by omega
                have k2 : ¬ (0 = b2) := by omega
                have k3 : ¬ (0 = b3) := by omega
                have k4 := rune4_pos b0 b1 b2 b3 c8a c5
                simp [List.mem_cons, k0, k1, k2, k3, k4]
              · rw [if_neg c8] at h; exact absurd h (by simp)
          · rw [if_neg c7] at h; exact absurd h (by simp)

lemma utf8Decode_zero_mem : ∀ (bs rs : List Nat), utf8Decode bs = some rs → (0 ∈ rs ↔ 0 ∈ bs)
  | [], rs, h => by
    unfold utf8Decode at h
    simp only [Option.some.injEq] at h
    subst h
    simp
  | b0 :: rest, rs, h => by
    unfold utf8Decode at h
    split at h
    next r rest' hone =>
      cases hrec : utf8Decode rest' with
      | none => rw [hrec] at h; simp at h
      | some rs' =>
        rw [hrec] at h
        simp only [Option.map_some', Option.some.injEq] at h
        subst h
        have hlen := utf8DecodeOne_shorter b0 rest r rest' hone
        have ih := utf8Decode_zero_mem rest' rs' hrec
        have hstep := utf8DecodeOne_zero b0 rest r rest' hone
        simp only [List.mem_cons]
        rw [ih, ← hstep]
    next hone => simp at h
termination_by bs _ _ => bs.length
decreasing_by simp only [List.length_cons]; omega

/-- A decimal digit byte, the regex class of digits. -/
def isDigit (b : Nat) : Bool := 48 ≤ b && b ≤ 57

/-- Longest leading run of digit bytes: its length and the remaining bytes. -/
def takeDigits : List Nat → Nat × List Nat
  | [] => (0, [])
  | b :: rest =>
    if isDigit b then ((takeDigits rest).1 + 1, (takeDigits rest).2)
    else (0, b :: rest)

/-- Strip one leading minus byte, the optional sign of the number formats. -/
def stripMinus (bs : List Nat) : List Nat :=
  match bs with
  | b :: rest => if b = 45 then rest else bs
  | [] => bs

/-- `integerRegex.Match(bs)` for the `IntegerFormat` regex (anchored optional
minus then 1 to 100 digits). Greedy digit runs are exact here because no
other regex element can consume a digit. -/
def integerFormatMatches (bs : List Nat) : Bool :=
  1 ≤ (takeDigits (stripMinus bs)).1 && (takeDigits (stripMinus bs)).1 ≤ 100 &&
    (takeDigits (stripMinus bs)).2.isEmpty

/-- The exponent part of a `DecimalFormat` match, anchored at the end. -/
def decimalExpTailMatches (bs : List Nat) : Bool :=
  match bs with
  | [] => true
  | b :: rest =>
    if b = 101 || b = 69 then
      let rest2 := match rest with
        | s :: rest3 => if s = 43 || s = 45 then rest3 else rest
        | [] => rest
      let p := takeDigits rest2
      1 ≤ p.1 && p.1 ≤ 2 && p.2.isEmpty
    else false

/-- The tail of a `DecimalFormat` match after the integral digits: an
optional fraction (a dot byte then 1 to 50 digits) followed by an optional
exponent (an e or E byte, an optional sign byte, then 1 or 2 digits),
anchored at the end. -/
def decimalTailMatches (bs : List Nat) : Bool :=
  match bs with
  | [] => true
  | 46 :: rest =>
    let p := takeDigits rest
    if 1 ≤ p.1 && p.1 ≤ 50 then decimalExpTailMatches p.2 else false
  | b :: rest => decimalExpTailMatches (b :: rest)

/-- `decimalRegex.Match(bs)` for the `DecimalFormat` regex (anchored optional
minus, 1 to 50 digits, optional fraction of 1 to 50 digits, optional
exponent of 1 or 2 digits with optional sign). -/
def decimalFormatMatches (bs : List Nat) : Bool :=
  1 ≤ (takeDigits (stripMinus bs)).1 && (takeDigits (stripMinus bs)).1 ≤ 50 &&
    decimalTailMatches (takeDigits (stripMinus bs)).2

/-- `func (t Kind) ValidateValue(value interface{}) error`: native-form
validation via `ValidateValueType`, then deep format validation of string,
integer-string, decimal-string and JSON kinds. `json.Valid` of the Go
standard library is external to the repository and is a parameter
`jsonValid`. The type assertions of the inner switch cannot fail because
`ValidateValueType` already succeeded; the corresponding unreachable
non-matching branches return `.ok ()`. -/
def Kind.ValidateValue (jsonValid : List Nat → Bool) (t : Kind) (value : GoValue) :
    Except String Unit :=
  match Kind.ValidateValueType t value with
  | .error e => .error e
  | .ok _ =>
    if t = StringKind then
      match value with
      | .string bs =>
        match utf8Decode bs with
        | none => .error "expected valid utf-8 string"
        | some runes =>
          if runes.contains 0 then .error "expected string without null characters"
          else .ok ()
      | _ => .ok ()
    else if t = IntegerStringKind then
      match value with
      | .string bs =>
        if integerFormatMatches bs then .ok () else .error "expected base10 integer"
      | _ => .ok ()
    else if t = DecimalStringKind then
      match value with
      | .string bs =>
        if decimalFormatMatches bs then .ok () else .error "expected decimal number"
      | _ => .ok ()
    else if t = JSONKind then
      match value with
      | .jsonRawMessage bs =>
        if jsonValid bs then .ok () else .error "expected valid JSON"
      | _ => .ok ()
    else .ok ()

lemma takeDigits_spec (bs : List Nat) :
    ∃ ds, bs = ds ++ (takeDigits bs).2 ∧ (takeDigits bs).1 = ds.length ∧
      (∀ b ∈ ds, isDigit b = true) ∧
      ∀ b rs, (takeDigits bs).2 = b :: rs → isDigit b = false := by
  induction bs with
  | nil => exact ⟨[], by simp [takeDigits]⟩
  | cons b rest ih =>
    by_cases hb : isDigit b = true
    · obtain ⟨ds, h1, h2, h3, h4⟩ := ih
      refine ⟨b :: ds, ?_, ?_, ?_, ?_⟩
      · unfold takeDigits
        rw [if_pos hb]
        simpa using h1
      · unfold takeDigits
        rw [if_pos hb]
        simp [h2]
      · intro x hx
        rcases List.mem_cons.mp hx with hx | hx
        · subst hx
          exact hb
        · exact h3 x hx
      · intro x rs hxr
        unfold takeDigits at hxr
        rw [if_pos hb] at hxr
        exact h4 x rs hxr
    · refine ⟨[], ?_, ?_, ?_, ?_⟩
      · unfold takeDigits
        rw [if_neg hb]
        rfl
      · unfold takeDigits
        rw [if_neg hb]
        rfl
      · intro x hx
        simp at hx
      · intro x rs hxr
        unfold takeDigits at hxr
        rw [if_neg hb] at hxr
        replace hxr : b :: rest = x :: rs := hxr
        injection hxr with hx hrs
        subst hx
        simpa using hb

lemma takeDigits_all_digits (ds : List Nat) (h : ∀ b ∈ ds, isDigit b = true) :
    takeDigits ds = (ds.length, []) := by
  induction ds with
  | nil => rfl
  | cons b rest ih =>
    unfold takeDigits
    rw [if_pos (h b (by simp))]
    rw [ih (fun x hx => h x (by simp [hx]))]
    rfl

/-- The integer format grammar of the spec, as a predicate on the bytes of a
Go string: an optional minus byte followed by 1 to 100 digit bytes. -/
def IntegerGrammar (bs : List Nat) : Prop :=
  ∃ sign digits, (sign = [] ∨ sign = [45]) ∧ bs = sign ++ digits ∧
    1 ≤ digits.length ∧ digits.length ≤ 100 ∧ ∀ b ∈ digits, 48 ≤ b ∧ b ≤ 57

lemma integerFormatMatches_iff (bs : List Nat) :
    integerFormatMatches bs = true ↔ IntegerGrammar bs := by
  constructor
  · intro h
    unfold integerFormatMatches at h
    simp only [Bool.and_eq_true, decide_eq_true_eq, List.isEmpty_iff] at h
    obtain ⟨⟨hlo, hhi⟩, hemp⟩ := h
    obtain ⟨ds, h1, h2, h3, _⟩ := takeDigits_spec (stripMinus bs)
    rw [hemp] at h1
    simp only [List.append_nil] at h1
    rw [h2] at hlo hhi
    have hds : ∀ b ∈ ds, 48 ≤ b ∧ b ≤ 57 := by
      intro x hx
      have := h3 x hx
      unfold isDigit at this
      simpa using this
    rcases hbs : bs with _ | ⟨b0, rest⟩
    · rw [hbs] at h1
      replace h1 : ([] : List Nat) = ds := h1
      rw [← h1] at hlo
      simp at hlo
    · rw [hbs] at h1
      replace h1 : (if b0 = 45 then rest else b0 :: rest) = ds := h1
      by_cases hb0 : b0 = 45
      · rw [if_pos hb0] at h1
        refine ⟨[45], ds, Or.inr rfl, ?_, hlo, hhi, hds⟩
        rw [hb0, ← h1]
        rfl
      · rw [if_neg hb0] at h1
        refine ⟨[], ds, Or.inl rfl, ?_, hlo, hhi, hds⟩
        rw [← h1]
        rfl
  · intro h
    obtain ⟨sign, ds, hsign, hbs, hlo, hhi, hds⟩ := h
    have hdig : ∀ b ∈ ds, isDigit b = true := by
      intro x hx
      have := hds x hx
      unfold isDigit
      simpa using this
    have hstrip : stripMinus bs = ds := by
      rcases hsign with hs | hs
      · subst hs
        rw [hbs]
        simp only [List.nil_append]
        rcases hshape : ds with _ | ⟨d0, drest⟩
        · rfl
        · show (if d0 = 45 then drest else d0 :: drest) = d0 :: drest
          have hd0 : 48 ≤ d0 ∧ d0 ≤ 57 := hds d0 (by rw [hshape]; simp)
          rw [if_neg (by omega)]
      · subst hs
        rw [hbs]
        show (if 45 = 45 then ds else 45 :: ds) = ds
        rw [if_pos rfl]
    unfold integerFormatMatches
    rw [hstrip, takeDigits_all_digits ds hdig]
    simp [hlo, hhi]

/-- C6: deep validation of `IntegerStringKind` string values succeeds exactly
when the bytes match the anchored integer format (optional minus then 1 to
100 digits); in particular it accepts "0", "-123", a 100-digit string and
the leading-zero string "01", and rejects the empty string and a 101-digit
string. -/
theorem integer_string_validate_value (jsonValid : List Nat → Bool) :
    (∀ bs : List Nat,
      Kind.ValidateValue jsonValid IntegerStringKind (.string bs) = .ok () ↔
        IntegerGrammar bs) ∧
    Kind.ValidateValue jsonValid IntegerStringKind (.string [48]) = .ok () ∧
    Kind.ValidateValue jsonValid IntegerStringKind (.string [45, 49, 50, 51]) = .ok () ∧
    Kind.ValidateValue jsonValid IntegerStringKind (.string (List.replicate 100 55)) = .ok () ∧
    Kind.ValidateValue jsonValid IntegerStringKind (.string [48, 49]) = .ok () ∧
    Kind.ValidateValue jsonValid IntegerStringKind (.string []) ≠ .ok () ∧
    Kind.ValidateValue jsonValid IntegerStringKind (.string (List.replicate 101 55)) ≠ .ok () := by
  refine ⟨?_, rfl, rfl, rfl, rfl, fun h => Except.noConfusion h, fun h => Except.noConfusion h⟩
  intro bs
  rw [← integerFormatMatches_iff]
  show (if integerFormatMatches bs then Except.ok () else Except.error "expected base10 integer")
      = Except.ok () ↔ integerFormatMatches bs = true
  by_cases hm : integerFormatMatches bs = true
  · rw [if_pos hm]
    exact ⟨fun _ => hm, fun _ => rfl⟩
  · rw [if_neg hm]
    exact ⟨fun h => Except.noConfusion h, fun h => absurd h hm⟩

/-- C7: deep validation of `StringKind` values succeeds for a Go string
exactly when its bytes are valid UTF-8 and contain no zero byte (no NUL
rune, equivalently, by `utf8Decode_zero_mem`); any non-string value is an
error. -/
theorem string_kind_validate_value (jsonValid : List Nat → Bool) :
    (∀ bs : List Nat,
      Kind.ValidateValue jsonValid StringKind (.string bs) = .ok () ↔
        ((utf8Decode bs).isSome = true ∧ ¬ (0 ∈ bs))) ∧
    ∀ v : GoValue, (∀ bs, v ≠ .string bs) →
      Kind.ValidateValue jsonValid StringKind v ≠ .ok () := by
  constructor
  · intro bs
    show (match utf8Decode bs with
        | none => Except.error "expected valid utf-8 string"
        | some runes =>
          if runes.contains 0 then Except.error "expected string without null characters"
          else Except.ok ()) = Except.ok () ↔ _
    cases hdec : utf8Decode bs with
    | none =>
      constructor
      · exact fun h => Except.noConfusion h
      · rintro ⟨hsome, _⟩
        simp at hsome
    | some runes =>
      show (if runes.contains 0 then Except.error "expected string without null characters"
          else Except.ok ()) = Except.ok () ↔
        ((Option.some runes).isSome = true ∧ ¬ (0 ∈ bs))
      by_cases hc : runes.contains 0 = true
      · rw [if_pos hc]
        constructor
        · exact fun h => Except.noConfusion h
        · rintro ⟨_, hnot⟩
          have h0 : 0 ∈ runes := by simpa using hc
          exact absurd ((utf8Decode_zero_mem bs runes hdec).mp h0) hnot
      · rw [if_neg hc]
        constructor
        · intro _
          refine ⟨rfl, ?_⟩
          intro hmem
          exact hc (by simpa using (utf8Decode_zero_mem bs runes hdec).mpr hmem)
        · exact fun _ => rfl
  · intro v hv
    cases v with
    | string bs => exact absurd rfl (hv bs)
    | bytes bs => exact fun h => Except.noConfusion h
    | int8 x => exact fun h => Except.noConfusion h
    | uint8 x => exact fun h => Except.noConfusion h
    | int16 x => exact fun h => Except.noConfusion h
    | uint16 x => exact fun h => Except.noConfusion h
    | int32 x => exact fun h => Except.noConfusion h
    | uint32 x => exact fun h => Except.noConfusion h
    | int64 x => exact fun h => Except.noConfusion h
    | uint64 x => exact fun h => Except.noConfusion h
    | float32 x => exact fun h => Except.noConfusion h
    | float64 x => exact fun h => Except.noConfusion h
    | bool x => exact fun h => Except.noConfusion h
    | time x => exact fun h => Except.noConfusion h
    | duration x => exact fun h => Except.noConfusion h
    | jsonRawMessage x => exact fun h => Except.noConfusion h
    | other x => exact fun h => Except.noConfusion h

/-- Witness for C7: the two-byte ASCII string "hi" round-trips the
characterization, and a non-string value is rejected. -/
theorem string_kind_validate_value_witness :
    (Kind.ValidateValue (fun _ => true) StringKind (.string [104, 105]) = .ok () ↔
      ((utf8Decode [104, 105]).isSome = true ∧ ¬ (0 ∈ ([104, 105] : List Nat)))) ∧
    Kind.ValidateValue (fun _ => true) StringKind (.bool true) ≠ .ok () :=
  ⟨(string_kind_validate_value (fun _ => true)).1 [104, 105],
   (string_kind_validate_value (fun _ => true)).2 (.bool true)
     (fun bs h => GoValue.noConfusion h)⟩

/-- `schema.ObjectUpdate`: one entity's key, value and deletion flag, tagged
with the object type name. The key and value payload types (Go `any`) are
parameters of the embedding. -/
structure ObjectUpdate (K V : Type) where
  typeName : String
  key : K
  value : V
  delete : Bool
deriving DecidableEq

/-- `appdata.ObjectUpdateData`: an object update packet, tagged with the
owning module name. The update payload type is a parameter. -/
structure ObjectUpdateData (U : Type) where
  moduleName : String
  update : U
deriving DecidableEq

/-- `appdata.Packet`: the discriminated union of protocol packets.
`Simulator.ProcessBlockData` treats `ObjectUpdateData` packets specially
(the `packet.(appdata.ObjectUpdateData)` type assertion) and forwards every
other packet variant unchanged; the other variants are collapsed into
`other`. -/
inductive Packet (U : Type) where
  | objectUpdate (d : ObjectUpdateData U)
  | other (tag : Nat)
deriving DecidableEq

/-- `appdata.Listener` as used by the simulator: the optional `StartBlock`
and `Commit` callbacks (the `if f := ...; f != nil` checks skip nil ones)
and the always-available `SendPacket` method. Callbacks fail with errors of
type `E`. -/
structure Listener (U E : Type) where
  startBlock : Option (Nat → Except E Unit)
  sendPacket : Packet U → Except E Unit
  commit : Option (Unit → Except E Unit)

/-- The mutable fields of `Simulator` touched by `ProcessBlockData`: the
reference state model (`statesim.App`, whose code is outside this
repository, abstracted to a state type `S`) and the `blockNum uint64`
counter. -/
structure Simulator (S : Type) where
  state : S
  blockNum : Nat
deriving DecidableEq

/-- One observable listener invocation made by `ProcessBlockData`. -/
inductive SimCall (U : Type) where
  | startBlock (height : Nat)
  | sendPacket (p : Packet U)
  | commit
deriving DecidableEq

/-- One iteration of the packet loop of `Simulator.ProcessBlockData`:
`Listener.SendPacket` on the packet, and for an `ObjectUpdateData` packet
(the `packet.(appdata.ObjectUpdateData)` type assertion) also
`state.ApplyUpdate` (`statesim.App` is outside this repository; its update
function is the parameter `applyUpdate`). Either error is returned as the
loop's error; on success the simulator with the possibly updated state is
returned. -/
def processPacket {S U E : Type} (applyUpdate : S → String → U → Except E S)
    (L : Listener U E) (a : Simulator S) (p : Packet U) : Except E (Simulator S) :=
  match L.sendPacket p with
  | .error e => .error e
  | .ok _ =>
    match p with
    | .objectUpdate d =>
      match applyUpdate a.state d.moduleName d.update with
      | .error e => .error e
      | .ok s2 => .ok { a with state := s2 }
    | .other _ => .ok a

/-- The packet loop of `Simulator.ProcessBlockData`: one `processPacket`
iteration per packet, stopping at the first error. The result carries the
final simulator fields, the trace of `SendPacket` calls made (the packet is
sent before any of its errors can surface), and the error if any. -/
def processPackets {S U E : Type} (applyUpdate : S → String → U → Except E S)
    (L : Listener U E) (a : Simulator S) :
    List (Packet U) → Simulator S × List (SimCall U) × Option E
  | [] => (a, [], none)
  | p :: rest =>
    match processPacket applyUpdate L a p with
    | .error e => (a, [.sendPacket p], some e)
    | .ok a2 =>
      ((processPackets applyUpdate L a2 rest).1,
       .sendPacket p :: (processPackets applyUpdate L a2 rest).2.1,
       (processPackets applyUpdate L a2 rest).2.2)

/-- The `Commit` step at the end of `Simulator.ProcessBlockData`, skipped
when the listener has no `Commit` callback. -/
def commitStep {U E : Type} (L : Listener U E) : List (SimCall U) × Option E :=
  match L.commit with
  | some f =>
    match f () with
    | .error e => ([.commit], some e)
    | .ok _ => ([.commit], none)
  | none => ([], none)

/-- `func (a *Simulator) ProcessBlockData(data BlockData) error`: increment
`blockNum` (a `uint64`, hence modulo `2 ^ 64`), call `StartBlock` with the
new height when the callback is present, run the packet loop, then the
`Commit` step; any error is returned immediately, leaving the already
performed mutations in place. -/
def ProcessBlockData {S U E : Type} (applyUpdate : S → String → U → Except E S)
    (L : Listener U E) (a0 : Simulator S) (data : List (Packet U)) :
    Simulator S × List (SimCall U) × Option E :=
  let a : Simulator S := { a0 with blockNum := (a0.blockNum + 1) % 2 ^ 64 }
  match L.startBlock with
  | some f =>
    match f a.blockNum with
    | .error e => (a, [.startBlock a.blockNum], some e)
    | .ok _ =>
      match processPackets applyUpdate L a data with
      | (a2, calls, some e) => (a2, .startBlock a.blockNum :: calls, some e)
      | (a2, calls, none) =>
        (a2, .startBlock a.blockNum :: calls ++ (commitStep L).1, (commitStep L).2)
  | none =>
    match processPackets applyUpdate L a data with
    | (a2, calls, some e) => (a2, calls, some e)
    | (a2, calls, none) => (a2, calls ++ (commitStep L).1, (commitStep L).2)

/-- The leading trace of `ProcessBlockData`: the `StartBlock` call when the
listener has that callback, nothing otherwise. -/
def startCalls {U E : Type} (L : Listener U E) (h : Nat) : List (SimCall U) :=
  match L.startBlock with
  | some _ => [.startBlock h]
  | none => []

/-- Reference composition of the state updates of a packet list: the effect
of the `state.ApplyUpdate` calls alone. -/
def applyPackets {S U E : Type} (applyUpdate : S → String → U → Except E S) :
    S → List (Packet U) → Except E S
  | s, [] => .ok s
  | s, .objectUpdate d :: rest =>
    match applyUpdate s d.moduleName d.update with
    | .error e => .error e
    | .ok s2 => applyPackets applyUpdate s2 rest
  | s, .other _ :: rest => applyPackets applyUpdate s rest

lemma processPacket_send_error {S U E : Type} (applyUpdate : S → String → U → Except E S)
    (L : Listener U E) (a : Simulator S) (p : Packet U) (e : E)
    (h : L.sendPacket p = .error e) :
    processPacket applyUpdate L a p = .error e := by
  unfold processPacket
  rw [h]

lemma processPacket_update_ok {S U E : Type} (applyUpdate : S → String → U → Except E S)
    (L : Listener U E) (a : Simulator S) (d : ObjectUpdateData U) (s2 : S)
    (hsend : L.sendPacket (.objectUpdate d) = .ok ())
    (hap : applyUpdate a.state d.moduleName d.update = .ok s2) :
    processPacket applyUpdate L a (.objectUpdate d) = .ok { a with state := s2 } := by
  unfold processPacket
  rw [hsend]
  show (match applyUpdate a.state d.moduleName d.update with
    | .error e => Except.error e
    | .ok s2 => Except.ok { a with state := s2 }) = Except.ok { a with state := s2 }
  rw [hap]

lemma processPacket_other_ok {S U E : Type} (applyUpdate : S → String → U → Except E S)
    (L : Listener U E) (a : Simulator S) (t : Nat)
    (hsend : L.sendPacket (.other t) = .ok ()) :
    processPacket applyUpdate L a (.other t) = .ok a := by
  unfold processPacket
  rw [hsend]

lemma processPackets_cons_error {S U E : Type} (applyUpdate : S → String → U → Except E S)
    (L : Listener U E) (a : Simulator S) (p : Packet U) (rest : List (Packet U)) (e : E)
    (h : processPacket applyUpdate L a p = .error e) :
    processPackets applyUpdate L a (p :: rest) = (a, [.sendPacket p], some e) := by
  show (match processPacket applyUpdate L a p with
    | .error e => (a, [SimCall.sendPacket p], some e)
    | .ok a2 =>
      ((processPackets applyUpdate L a2 rest).1,
       SimCall.sendPacket p :: (processPackets applyUpdate L a2 rest).2.1,
       (processPackets applyUpdate L a2 rest).2.2)) = (a, [SimCall.sendPacket p], some e)
  rw [h]

lemma processPackets_cons_ok {S U E : Type} (applyUpdate : S → String → U → Except E S)
    (L : Listener U E) (a a2 : Simulator S) (p : Packet U) (rest : List (Packet U))
    (h : processPacket applyUpdate L a p = .ok a2) :
    processPackets applyUpdate L a (p :: rest) =
      ((processPackets applyUpdate L a2 rest).1,
       SimCall.sendPacket p :: (processPackets applyUpdate L a2 rest).2.1,
       (processPackets applyUpdate L a2 rest).2.2) := by
  show (match processPacket applyUpdate L a p with
    | .error e => (a, [SimCall.sendPacket p], some e)
    | .ok a2 =>
      ((processPackets applyUpdate L a2 rest).1,
       SimCall.sendPacket p :: (processPackets applyUpdate L a2 rest).2.1,
       (processPackets applyUpdate L a2 rest).2.2)) = _
  rw [h]

lemma processPackets_error_at {S U E : Type} (applyUpdate : S → String → U → Except E S)
    (L : Listener U E) (pre : List (Packet U)) (p : Packet U) (post : List (Packet U))
    (a : Simulator S) (s1 : S) (e : E)
    (hok : ∀ q ∈ pre, L.sendPacket q = .ok ())
    (happly : applyPackets applyUpdate a.state pre = .ok s1)
    (herr : L.sendPacket p = .error e) :
    processPackets applyUpdate L a (pre ++ p :: post) =
      ({ a with state := s1 }, pre.map SimCall.sendPacket ++ [SimCall.sendPacket p], some e) := by
  induction pre generalizing a with
  | nil =>
    replace happly : Except.ok (ε := E) a.state = .ok s1 := happly
    simp only [Except.ok.injEq] at happly
    subst happly
    simp only [List.nil_append, List.map_nil]
    exact processPackets_cons_error applyUpdate L a p post e
      (processPacket_send_error applyUpdate L a p e herr)
  | cons q pre2 ih =>
    have hq : L.sendPacket q = .ok () := hok q (by simp)
    cases q with
    | objectUpdate d =>
      replace happly :
          (match applyUpdate a.state d.moduleName d.update with
            | .error e => Except.error e
            | .ok s2 => applyPackets applyUpdate s2 pre2) = .ok s1 := happly
      cases hap : applyUpdate a.state d.moduleName d.update with
      | error e2 =>
        rw [hap] at happly
        exact absurd happly (by simp)
      | ok s2 =>
        rw [hap] at happly
        have ihx := ih { a with state := s2 } (fun x hx => hok x (by simp [hx])) happly
        rw [List.cons_append,
          processPackets_cons_ok applyUpdate L a { a with state := s2 }
            (.objectUpdate d) (pre2 ++ p :: post)
            (processPacket_update_ok applyUpdate L a d s2 hq hap),
          ihx]
        rfl
    | other t =>
      replace happly : applyPackets applyUpdate a.state pre2 = .ok s1 := happly
      have ihx := ih a (fun x hx => hok x (by simp [hx])) happly
      rw [List.cons_append,
        processPackets_cons_ok applyUpdate L a a (.other t) (pre2 ++ p :: post)
          (processPacket_other_ok applyUpdate L a t hq),
        ihx]
      rfl

lemma startCalls_no_commit {U E : Type} (L : Listener U E) (h : Nat) :
    SimCall.commit ∉ startCalls (U := U) L h := by
  unfold startCalls
  cases L.startBlock <;> simp

/-- C3: if `SendPacket` fails on the packet after a prefix `pre` of a block
whose earlier deliveries and state updates succeed (and `StartBlock`, when
present, succeeds), then `ProcessBlockData` returns exactly that error; its
call trace is the `StartBlock` call followed by the `SendPacket` calls of
`pre` and of the failing packet only — so no later packet is delivered and
`Commit` is never called — and the reference state reflects only the
updates of `pre`, not the failing packet's nor any later one. -/
theorem process_block_data_send_error {S U E : Type}
    (applyUpdate : S → String → U → Except E S) (L : Listener U E)
    (a0 : Simulator S) (pre : List (Packet U)) (p : Packet U) (post : List (Packet U))
    (s1 : S) (e : E)
    (hstart : ∀ f, L.startBlock = some f → f ((a0.blockNum + 1) % 2 ^ 64) = .ok ())
    (hok : ∀ q ∈ pre, L.sendPacket q = .ok ())
    (happly : applyPackets applyUpdate a0.state pre = .ok s1)
    (herr : L.sendPacket p = .error e) :
    ProcessBlockData applyUpdate L a0 (pre ++ p :: post) =
      ({ state := s1, blockNum := (a0.blockNum + 1) % 2 ^ 64 },
       startCalls L ((a0.blockNum + 1) % 2 ^ 64) ++
         (pre.map SimCall.sendPacket ++ [SimCall.sendPacket p]), some e) ∧
    SimCall.commit ∉ (ProcessBlockData applyUpdate L a0 (pre ++ p :: post)).2.1 := by
  have hloop := processPackets_error_at applyUpdate L pre p post
    { a0 with blockNum := (a0.blockNum + 1) % 2 ^ 64 } s1 e hok happly herr
  have hmain : ProcessBlockData applyUpdate L a0 (pre ++ p :: post) =
      ({ state := s1, blockNum := (a0.blockNum + 1) % 2 ^ 64 },
       startCalls L ((a0.blockNum + 1) % 2 ^ 64) ++
         (pre.map SimCall.sendPacket ++ [SimCall.sendPacket p]), some e) := by
    cases hsb : L.startBlock with
    | none =>
      show (match L.startBlock with
        | some f =>
          match f ((a0.blockNum + 1) % 2 ^ 64) with
          | Except.error e =>
            ({ a0 with blockNum := (a0.blockNum + 1) % 2 ^ 64 },
             [SimCall.startBlock ((a0.blockNum + 1) % 2 ^ 64)], some e)
          | Except.ok _ =>
            match processPackets applyUpdate L
                { a0 with blockNum := (a0.blockNum + 1) % 2 ^ 64 } (pre ++ p :: post) with
            | (a2, calls, some e) =>
              (a2, SimCall.startBlock ((a0.blockNum + 1) % 2 ^ 64) :: calls, some e)
            | (a2, calls, none) =>
              (a2, SimCall.startBlock ((a0.blockNum + 1) % 2 ^ 64) :: calls ++ (commitStep L).1,
               (commitStep L).2)
        | none =>
          match processPackets applyUpdate L
              { a0 with blockNum := (a0.blockNum + 1) % 2 ^ 64 } (pre ++ p :: post) with
          | (a2, calls, some e) => (a2, calls, some e)
          | (a2, calls, none) => (a2, calls ++ (commitStep L).1, (commitStep L).2)) = _
      rw [hsb, hloop]
      show (({ state := s1, blockNum := (a0.blockNum + 1) % 2 ^ 64 } : Simulator S),
          pre.map SimCall.sendPacket ++ [SimCall.sendPacket p], some e) = _
      unfold startCalls
      rw [hsb]
      rfl
    | some f =>
      have hf : f ((a0.blockNum + 1) % 2 ^ 64) = .ok () := hstart f hsb
      show (match L.startBlock with
        | some f =>
          match f ((a0.blockNum + 1) % 2 ^ 64) with
          | Except.error e =>
            ({ a0 with blockNum := (a0.blockNum + 1) % 2 ^ 64 },
             [SimCall.startBlock ((a0.blockNum + 1) % 2 ^ 64)], some e)
          | Except.ok _ =>
            match processPackets applyUpdate L
                { a0 with blockNum := (a0.blockNum + 1) % 2 ^ 64 } (pre ++ p :: post) with
            | (a2, calls, some e) =>
              (a2, SimCall.startBlock ((a0.blockNum + 1) % 2 ^ 64) :: calls, some e)
            | (a2, calls, none) =>
              (a2, SimCall.startBlock ((a0.blockNum + 1) % 2 ^ 64) :: calls ++ (commitStep L).1,
               (commitStep L).2)
        | none =>
          match processPackets applyUpdate L
              { a0 with blockNum := (a0.blockNum + 1) % 2 ^ 64 } (pre ++ p :: post) with
          | (a2, calls, some e) => (a2, calls, some e)
          | (a2, calls, none) => (a2, calls ++ (commitStep L).1, (commitStep L).2)) = _
      rw [hsb]
      show (match f ((a0.blockNum + 1) % 2 ^ 64) with
        | Except.error e =>
          ({ a0 with blockNum := (a0.blockNum + 1) % 2 ^ 64 },
           [SimCall.startBlock ((a0.blockNum + 1) % 2 ^ 64)], some e)
        | Except.ok _ =>
          match processPackets applyUpdate L
              { a0 with blockNum := (a0.blockNum + 1) % 2 ^ 64 } (pre ++ p :: post) with
          | (a2, calls, some e) =>
            (a2, SimCall.startBlock ((a0.blockNum + 1) % 2 ^ 64) :: calls, some e)
          | (a2, calls, none) =>
            (a2, SimCall.startBlock ((a0.blockNum + 1) % 2 ^ 64) :: calls ++ (commitStep L).1,
             (commitStep L).2)) = _
      rw [hf, hloop]
      show (({ state := s1, blockNum := (a0.blockNum + 1) % 2 ^ 64 } : Simulator S),
          SimCall.startBlock ((a0.blockNum + 1) % 2 ^ 64) ::
            (pre.map SimCall.sendPacket ++ [SimCall.sendPacket p]), some e) = _
      unfold startCalls
      rw [hsb]
      rfl
  refine ⟨hmain, ?_⟩
  rw [hmain]
  intro hmem
  simp only [List.mem_append] at hmem
  rcases hmem with hmem | hmem | hmem
  · exact startCalls_no_commit L _ hmem
  · rcases List.mem_map.mp hmem with ⟨q, _, hq⟩
    exact SimCall.noConfusion hq
  · exact SimCall.noConfusion (List.mem_singleton.mp hmem)

/-- Concrete listener for the C3 witness: `SendPacket` fails on the object
update with payload 2, everything else succeeds. -/
def witnessListener : Listener Nat String where
  startBlock := some (fun _ => Except.ok ())
  sendPacket := fun p =>
    match p with
    | .objectUpdate d => if d.update = 2 then Except.error "boom" else Except.ok ()
    | .other _ => Except.ok ()
  commit := some (fun _ => Except.ok ())

/-- Concrete reference-state update for the C3 witness: add the payload. -/
def witnessApply : Nat → String → Nat → Except String Nat :=
  fun s _ u => Except.ok (s + u)

/-- A bank object-update packet with payload `u`, for the C3 witness. -/
def wp (u : Nat) : Packet Nat := Packet.objectUpdate ⟨"bank", u⟩

/-- Witness for C3: in a block of three updates whose second delivery
fails, only the first update reaches the reference state, the trace stops
at the failing packet, and `Commit` never appears. -/
theorem process_block_data_send_error_witness :
    ProcessBlockData witnessApply witnessListener { state := 0, blockNum := 0 }
        ([wp 1] ++ wp 2 :: [wp 3]) =
      ({ state := 1, blockNum := (0 + 1) % 2 ^ 64 },
       startCalls witnessListener ((0 + 1) % 2 ^ 64) ++
         ([wp 1].map SimCall.sendPacket ++ [SimCall.sendPacket (wp 2)]), some "boom") ∧
    SimCall.commit ∉
      (ProcessBlockData witnessApply witnessListener { state := 0, blockNum := 0 }
        ([wp 1] ++ wp 2 :: [wp 3])).2.1 :=
  process_block_data_send_error witnessApply witnessListener
    { state := 0, blockNum := 0 } [wp 1] (wp 2) [wp 3] 1 "boom"
    (fun f hf => by
      injection hf with h
      subst h
      rfl)
    (fun q hq => by
      obtain rfl := List.mem_singleton.mp hq
      rfl)
    rfl rfl

lemma processPacket_blockNum {S U E : Type} (applyUpdate : S → String → U → Except E S)
    (L : Listener U E) (a a2 : Simulator S) (p : Packet U)
    (hp : processPacket applyUpdate L a p = .ok a2) : a2.blockNum = a.blockNum := by
  unfold processPacket at hp
  cases hs : L.sendPacket p with
  | error e =>
    rw [hs] at hp
    exact absurd hp (by simp)
  | ok u =>
    rw [hs] at hp
    replace hp : (match p with
      | Packet.objectUpdate d =>
        match applyUpdate a.state d.moduleName d.update with
        | Except.error e => Except.error e
        | Except.ok s2 => Except.ok { a with state := s2 }
      | Packet.other _ => Except.ok a) = Except.ok a2 := hp
    cases p with
    | objectUpdate d =>
      replace hp : (match applyUpdate a.state d.moduleName d.update with
        | Except.error e => Except.error e
        | Except.ok s2 => Except.ok { a with state := s2 }) = Except.ok a2 := hp
      cases hap : applyUpdate a.state d.moduleName d.update with
      | error e =>
        rw [hap] at hp
        exact absurd hp (by simp)
      | ok s2 =>
        rw [hap] at hp
        replace hp : Except.ok { a with state := s2 } = Except.ok a2 := hp
        simp only [Except.ok.injEq] at hp
        rw [← hp]
    | other t =>
      replace hp : Except.ok a = Except.ok a2 := hp
      simp only [Except.ok.injEq] at hp
      rw [← hp]

lemma processPackets_blockNum {S U E : Type} (applyUpdate : S → String → U → Except E S)
    (L : Listener U E) :
    ∀ (data : List (Packet U)) (a : Simulator S),
      (processPackets applyUpdate L a data).1.blockNum = a.blockNum := by
  intro data
  induction data with
  | nil => intro a; rfl
  | cons p rest ih =>
    intro a
    cases hp : processPacket applyUpdate L a p with
    | error e =>
      rw [processPackets_cons_error applyUpdate L a p rest e hp]
    | ok a2 =>
      rw [processPackets_cons_ok applyUpdate L a a2 p rest hp]
      show (processPackets applyUpdate L a2 rest).1.blockNum = a.blockNum
      rw [ih a2, processPacket_blockNum applyUpdate L a a2 p hp]

lemma ProcessBlockData_eq {S U E : Type} (applyUpdate : S → String → U → Except E S)
    (L : Listener U E) (a0 : Simulator S) (data : List (Packet U)) :
    ProcessBlockData applyUpdate L a0 data =
      (match L.startBlock with
      | some f =>
        match f ((a0.blockNum + 1) % 2 ^ 64) with
        | Except.error e =>
          ({ a0 with blockNum := (a0.blockNum + 1) % 2 ^ 64 },
           [SimCall.startBlock ((a0.blockNum + 1) % 2 ^ 64)], some e)
        | Except.ok _ =>
          match processPackets applyUpdate L
              { a0 with blockNum := (a0.blockNum + 1) % 2 ^ 64 } data with
          | (a2, calls, some e) =>
            (a2, SimCall.startBlock ((a0.blockNum + 1) % 2 ^ 64) :: calls, some e)
          | (a2, calls, none) =>
            (a2, SimCall.startBlock ((a0.blockNum + 1) % 2 ^ 64) :: calls ++ (commitStep L).1,
             (commitStep L).2)
      | none =>
        match processPackets applyUpdate L
            { a0 with blockNum := (a0.blockNum + 1) % 2 ^ 64 } data with
        | (a2, calls, some e) => (a2, calls, some e)
        | (a2, calls, none) => (a2, calls ++ (commitStep L).1, (commitStep L).2)) := rfl

/-- C4 (amended): `ProcessBlockData` increments the block counter by one
(modulo `2 ^ 64`, the width of `uint64`) unconditionally at entry, so the
counter is advanced whether the block succeeds or any listener callback
fails. -/
theorem process_block_data_blocknum_always {S U E : Type}
    (applyUpdate : S → String → U → Except E S) (L : Listener U E)
    (a0 : Simulator S) (data : List (Packet U)) :
    (ProcessBlockData applyUpdate L a0 data).1.blockNum = (a0.blockNum + 1) % 2 ^ 64 := by
  have hpp := processPackets_blockNum applyUpdate L data
    { a0 with blockNum := (a0.blockNum + 1) % 2 ^ 64 }
  cases hsb : L.startBlock with
  | none =>
    have he : ProcessBlockData applyUpdate L a0 data =
        (match processPackets applyUpdate L
            { a0 with blockNum := (a0.blockNum + 1) % 2 ^ 64 } data with
        | (a2, calls, some e) => (a2, calls, some e)
        | (a2, calls, none) => (a2, calls ++ (commitStep L).1, (commitStep L).2)) := by
      rw [ProcessBlockData_eq, hsb]
    rw [he]
    rcases hr : processPackets applyUpdate L
        { a0 with blockNum := (a0.blockNum + 1) % 2 ^ 64 } data with ⟨a2, calls, err⟩
    cases err with
    | some e =>
      rw [hr] at hpp
      exact hpp
    | none =>
      rw [hr] at hpp
      exact hpp
  | some f =>
    cases hf : f ((a0.blockNum + 1) % 2 ^ 64) with
    | error e =>
      have he : ProcessBlockData applyUpdate L a0 data =
          ({ a0 with blockNum := (a0.blockNum + 1) % 2 ^ 64 },
           [SimCall.startBlock ((a0.blockNum + 1) % 2 ^ 64)], some e) := by
        rw [ProcessBlockData_eq, hsb]
        show (match f ((a0.blockNum + 1) % 2 ^ 64) with
          | Except.error e =>
            ({ a0 with blockNum := (a0.blockNum + 1) % 2 ^ 64 },
             [SimCall.startBlock ((a0.blockNum + 1) % 2 ^ 64)], some e)
          | Except.ok _ =>
            match processPackets applyUpdate L
                { a0 with blockNum := (a0.blockNum + 1) % 2 ^ 64 } data with
            | (a2, calls, some e) =>
              (a2, SimCall.startBlock ((a0.blockNum + 1) % 2 ^ 64) :: calls, some e)
            | (a2, calls, none) =>
              (a2, SimCall.startBlock ((a0.blockNum + 1) % 2 ^ 64) :: calls ++ (commitStep L).1,
               (commitStep L).2)) = _
        rw [hf]
      rw [he]
    | ok u =>
      have he : ProcessBlockData applyUpdate L a0 data =
          (match processPackets applyUpdate L
              { a0 with blockNum := (a0.blockNum + 1) % 2 ^ 64 } data with
          | (a2, calls, some e) =>
            (a2, SimCall.startBlock ((a0.blockNum + 1) % 2 ^ 64) :: calls, some e)
          | (a2, calls, none) =>
            (a2, SimCall.startBlock ((a0.blockNum + 1) % 2 ^ 64) :: calls ++ (commitStep L).1,
             (commitStep L).2)) := by
        rw [ProcessBlockData_eq, hsb]
        show (match f ((a0.blockNum + 1) % 2 ^ 64) with
          | Except.error e =>
            ({ a0 with blockNum := (a0.blockNum + 1) % 2 ^ 64 },
             [SimCall.startBlock ((a0.blockNum + 1) % 2 ^ 64)], some e)
          | Except.ok _ =>
            match processPackets applyUpdate L
                { a0 with blockNum := (a0.blockNum + 1) % 2 ^ 64 } data with
            | (a2, calls, some e) =>
              (a2, SimCall.startBlock ((a0.blockNum + 1) % 2 ^ 64) :: calls, some e)
            | (a2, calls, none) =>
              (a2, SimCall.startBlock ((a0.blockNum + 1) % 2 ^ 64) :: calls ++ (commitStep L).1,
               (commitStep L).2)) = _
        rw [hf]
      rw [he]
      rcases hr : processPackets applyUpdate L
          { a0 with blockNum := (a0.blockNum + 1) % 2 ^ 64 } data with ⟨a2, calls, err⟩
      cases err with
      | some e =>
        rw [hr] at hpp
        exact hpp
      | none =>
        rw [hr] at hpp
        exact hpp

/-- Counterexample to C4 as stated: with a listener whose `StartBlock`
always fails, `ProcessBlockData` reports the error, yet the simulator's
block counter has advanced from 0 to 1. -/
theorem process_block_data_counter_counterexample :
    ((ProcessBlockData (fun (s : Nat) (_ : String) (u : Nat) => Except.ok (s + u))
        { startBlock := some (fun _ => Except.error "start failed"),
          sendPacket := fun _ => Except.ok (), commit := none }
        { state := 0, blockNum := 0 } ([] : List (Packet Nat))).2.2 = some "start failed") ∧
    ((ProcessBlockData (fun (s : Nat) (_ : String) (u : Nat) => Except.ok (s + u))
        { startBlock := some (fun _ => Except.error "start failed"),
          sendPacket := fun _ => Except.ok (), commit := none }
        { state := 0, blockNum := 0 } ([] : List (Packet Nat))).1.blockNum = 1) ∧
    (1 : Nat) ≠ 0 :=
  ⟨rfl, rfl, by decide⟩

/-- A `Draw` from a `rapid` generator filtered by `pred`
(`Filter(pred).Draw`): the base generator redraws until the predicate
accepts. The random base draws are modelled as a stream consumed from the
front; `none` when the stream ends before a draw passes. -/
def drawFiltered {α : Type} (pred : α → Bool) : List α → Option (α × List α)
  | [] => none
  | u :: rest => if pred u then some (u, rest) else drawFiltered pred rest

/-- The dedup key that `BlockDataGenN` computes with
`fmt.Sprintf of the module name and the update key`: the module name, a
colon, and the `%v` rendering of the key. `%v` of an arbitrary Go value is
standard-library behaviour, abstracted as the parameter `reprKey`. -/
def updateKeyString {K V : Type} (reprKey : K → String)
    (d : ObjectUpdateData (ObjectUpdate K V)) : String :=
  d.moduleName ++ ":" ++ reprKey d.update.key

/-- The generator body of `Simulator.BlockDataGenN` once the block size has
been drawn from `rapid.IntRange(1, maxUpdatesPerBlock)`: repeatedly draw an
update whose `(module, key)` string is not yet in `updateSet` (the filter
closure over the growing map), record the chosen key, and collect the drawn
updates as the block's packets. -/
def BlockDataGenN {K V : Type} (reprKey : K → String) (updateSet : List String) :
    Nat → List (ObjectUpdateData (ObjectUpdate K V)) →
      Option (List (ObjectUpdateData (ObjectUpdate K V)))
  | 0, _ => some []
  | n + 1, stream =>
    match drawFiltered (fun u => !(updateSet.contains (updateKeyString reprKey u))) stream with
    | none => none
    | some (u, rest) =>
      match BlockDataGenN reprKey (updateKeyString reprKey u :: updateSet) n rest with
      | none => none
      | some l => some (u :: l)

lemma drawFiltered_pred {α : Type} (pred : α → Bool) :
    ∀ (l : List α) (u : α) (rest : List α), drawFiltered pred l = some (u, rest) →
      pred u = true := by
  intro l
  induction l with
  | nil =>
    intro u rest h
    exact absurd h (by simp [drawFiltered])
  | cons x xs ih =>
    intro u rest h
    unfold drawFiltered at h
    by_cases hp : pred x = true
    · rw [if_pos hp] at h
      simp only [Option.some.injEq, Prod.mk.injEq] at h
      obtain ⟨hu, _⟩ := h
      rw [← hu]
      exact hp
    · rw [if_neg hp] at h
      exact ih u rest h

lemma blockDataGenN_spec {K V : Type} (reprKey : K → String) :
    ∀ (n : Nat) (updateSet : List String)
      (stream packets : List (ObjectUpdateData (ObjectUpdate K V))),
      BlockDataGenN reprKey updateSet n stream = some packets →
      packets.length = n ∧
      (∀ d ∈ packets, updateSet.contains (updateKeyString reprKey d) = false) ∧
      packets.Pairwise (fun d1 d2 =>
        updateKeyString reprKey d1 ≠ updateKeyString reprKey d2) := by
  intro n
  induction n with
  | zero =>
    intro us st pk h
    replace h : some ([] : List (ObjectUpdateData (ObjectUpdate K V))) = some pk := h
    simp only [Option.some.injEq] at h
    subst h
    simp
  | succ m ih =>
    intro us st pk h
    unfold BlockDataGenN at h
    cases hdraw : drawFiltered
        (fun u => !(us.contains (updateKeyString reprKey u))) st with
    | none =>
      rw [hdraw] at h
      exact absurd h (by simp)
    | some pr =>
      obtain ⟨u, rest⟩ := pr
      rw [hdraw] at h
      replace h : (match BlockDataGenN reprKey (updateKeyString reprKey u :: us) m rest with
        | none => none
        | some l => some (u :: l)) = some pk := h
      cases hrec : BlockDataGenN reprKey (updateKeyString reprKey u :: us) m rest with
      | none =>
        rw [hrec] at h
        exact absurd h (by simp)
      | some l =>
        rw [hrec] at h
        replace h : some (u :: l) = some pk := h
        simp only [Option.some.injEq] at h
        subst h
        obtain ⟨hlen, hfresh, hpw⟩ := ih (updateKeyString reprKey u :: us) rest l hrec
        have hu : us.contains (updateKeyString reprKey u) = false := by
          have := drawFiltered_pred _ st u rest hdraw
          simpa using this
        refine ⟨by simp [hlen], ?_, ?_⟩
        · intro d hd
          rcases List.mem_cons.mp hd with hd | hd
          · rw [hd]
            exact hu
          · have := hfresh d hd
            simp only [List.contains_cons, Bool.or_eq_false_iff] at this
            exact this.2
        · refine List.Pairwise.cons ?_ hpw
          intro d hd
          have := hfresh d hd
          simp only [List.contains_cons, Bool.or_eq_false_iff] at this
          intro heqk
          rw [heqk] at this
          simp at this

/-- C9: every block produced by the generator body of `BlockDataGenN` with a
size draw `n` from `rapid.IntRange(1, maxUpdatesPerBlock)` (so
`1 <= n <= maxUpdatesPerBlock`) contains exactly `n` object-update packets,
and their `(module name, key)` pairs are pairwise distinct. -/
theorem block_data_gen_spec {K V : Type} (reprKey : K → String) (n maxUpdates : Nat)
    (stream packets : List (ObjectUpdateData (ObjectUpdate K V)))
    (h1 : 1 ≤ n) (h2 : n ≤ maxUpdates)
    (hgen : BlockDataGenN reprKey [] n stream = some packets) :
    packets.length = n ∧ 1 ≤ packets.length ∧ packets.length ≤ maxUpdates ∧
    packets.Pairwise (fun d1 d2 =>
      (d1.moduleName, d1.update.key) ≠ (d2.moduleName, d2.update.key)) := by
  obtain ⟨hlen, _, hpw⟩ := blockDataGenN_spec reprKey n [] stream packets hgen
  refine ⟨hlen, by omega, by omega, ?_⟩
  refine hpw.imp ?_
  intro d1 d2 hne hpair
  apply hne
  unfold updateKeyString
  rw [show d1.moduleName = d2.moduleName from congrArg Prod.fst hpair,
    show d1.update.key = d2.update.key from congrArg Prod.snd hpair]

/-- Witness for C9: a stream of two distinct bank balance updates generates
a block of exactly two packets with distinct module/key pairs. -/
theorem block_data_gen_spec_witness :
    ([(⟨"bank", ⟨"balance", "alice", 7, false⟩⟩ : ObjectUpdateData (ObjectUpdate String Nat)),
       ⟨"bank", ⟨"balance", "bob", 9, false⟩⟩].length = 2 ∧
     1 ≤ [(⟨"bank", ⟨"balance", "alice", 7, false⟩⟩ : ObjectUpdateData (ObjectUpdate String Nat)),
       ⟨"bank", ⟨"balance", "bob", 9, false⟩⟩].length ∧
     [(⟨"bank", ⟨"balance", "alice", 7, false⟩⟩ : ObjectUpdateData (ObjectUpdate String Nat)),
       ⟨"bank", ⟨"balance", "bob", 9, false⟩⟩].length ≤ 3 ∧
     [(⟨"bank", ⟨"balance", "alice", 7, false⟩⟩ : ObjectUpdateData (ObjectUpdate String Nat)),
       ⟨"bank", ⟨"balance", "bob", 9, false⟩⟩].Pairwise (fun d1 d2 =>
        (d1.moduleName, d1.update.key) ≠ (d2.moduleName, d2.update.key))) :=
  block_data_gen_spec (fun k => k) 2 3
    [⟨"bank", ⟨"balance", "alice", 7, false⟩⟩, ⟨"bank", ⟨"balance", "bob", 9, false⟩⟩]
    [⟨"bank", ⟨"balance", "alice", 7, false⟩⟩, ⟨"bank", ⟨"balance", "bob", 9, false⟩⟩]
    (by decide) (by decide) rfl
